import Mathlib

/-!
Verification of keepd, a ZFS snapshot retention daemon, against its
natural-language specification.

The development shallowly embeds the Go sources:
  - `service.go`  : snapshot matcher, `Enforce`, `FrequentJob`, `RegularJob`, journal events
  - `policy.go`   : `Plan`, `Policy`, `LoadPolicy`, `ExtractPools`
  - `zfs.go`      : `CreateSnapshot` name formatting, adapter calls
and the parts of Go's standard `time` package that `RegularJob` relies on
(`Year`, `YearDay`, `Month`, `ISOWeek` on Unix timestamps, here in UTC).

Machine integers are modelled as `Int`/`Nat` (the quantities involved -- Unix
seconds, keep counts, list lengths -- stay far from 64-bit wrap in the
program); fallible adapter calls are modelled as oracle parameters; the
side effects of one `Enforce` run are modelled as an explicit trace.
-/

/-! ## Calendar model (Go `time` package, UTC)

Go's `time.Time.date` computes the civil date from a day number with the
400/100/4/1-year euclidean decomposition (`absDate` in `time.go`): divide by
146097 (days per 400 years), then by 36524 (days per century, clamping the
quotient from 4 to 3), then by 1461 (days per 4-year span), then by 365
(again clamping), leap day falling at the end of each 4-year span except at
century boundaries other than multiples of 400.  We base the decomposition
at 2001-01-01 (day index 11323 relative to the Unix epoch), the start of a
400-year cycle, so exactly the same quotient/clamp steps apply.  `Month` is
derived from the day-of-year through the cumulative month-length table,
with February 29 folded in for leap years, exactly as Go's `absDate` does.
`ISOWeek` is the ISO-8601 week of the Thursday of the containing
Monday-based week, which is what Go's `ISOWeek` computes. -/

/-- Day index of a Unix timestamp in seconds (days since 1970-01-01, UTC);
`/` on `Int` is euclidean division, which is floor division for the positive
divisor. -/
def dayOf (s : Int) : Int := s / 86400

/-- Days since 2001-01-01, the start of a 400-year Gregorian cycle. -/
def ddOf (d : Int) : Int := d - 11323

/-- Completed 400-year cycles since 2001-01-01. -/
def cOf (d : Int) : Int := ddOf d / 146097

/-- Day within the current 400-year cycle. -/
def r1Of (d : Int) : Int := ddOf d - 146097 * cOf d

/-- Completed centuries within the cycle (quotient clamped from 4 to 3,
because the 4th century of a cycle has one extra day). -/
def n2Of (d : Int) : Int := r1Of d / 36524 - r1Of d / 36524 / 4

/-- Day within the current century. -/
def r2Of (d : Int) : Int := r1Of d - 36524 * n2Of d

/-- Completed 4-year spans within the century. -/
def n3Of (d : Int) : Int := r2Of d / 1461

/-- Day within the current 4-year span. -/
def r3Of (d : Int) : Int := r2Of d - 1461 * n3Of d

/-- Completed years within the 4-year span (quotient clamped from 4 to 3,
because the 4th year of a span is the leap year). -/
def n4Of (d : Int) : Int := r3Of d / 365 - r3Of d / 365 / 4

/-- Zero-based day of the year (Go's `yday`). -/
def yday0Of (d : Int) : Int := r3Of d - 365 * n4Of d

/-- Calendar year of a day index (Go `Time.Year`). -/
def yearOf (d : Int) : Int := 2001 + 400 * cOf d + 100 * n2Of d + 4 * n3Of d + n4Of d

/-- One-based day of the year (Go `Time.YearDay`). -/
def yearDayOf (d : Int) : Int := yday0Of d + 1

/-- Day index of January 1 of year `y`, by the standard closed form counting
leap years before `y`. -/
def jan1s (y : Int) : Int :=
  365 * (y - 1) + (y - 1) / 4 - (y - 1) / 100 + (y - 1) / 400 - 719162

/-- Gregorian leap-year predicate (Go `isLeap`). -/
def isLeapYear (y : Int) : Bool := y % 4 == 0 && (!(y % 100 == 0) || y % 400 == 0)

/-- Month of a zero-based day of a non-leap year, through the cumulative
month-length table `[0,31,59,90,120,151,181,212,243,273,304,334]`. -/
def monthTable (z : Int) : Int :=
  if z < 31 then 1 else if z < 59 then 2 else if z < 90 then 3 else if z < 120 then 4
  else if z < 151 then 5 else if z < 181 then 6 else if z < 212 then 7 else if z < 243 then 8
  else if z < 273 then 9 else if z < 304 then 10 else if z < 334 then 11 else 12

/-- Month of a zero-based day of the year: in a leap year day 59 is
February 29 and later days are shifted down by one before the table lookup
(Go `absDate` with `full=true`). -/
def monthFromYday (leap : Bool) (y0 : Int) : Int :=
  if leap = true ∧ y0 = 59 then 2
  else monthTable (if leap = true ∧ 59 < y0 then y0 - 1 else y0)

/-- Calendar month of a day index (Go `Time.Month`), as an integer 1..12. -/
def monthOf (d : Int) : Int := monthFromYday (isLeapYear (yearOf d)) (yday0Of d)

/-- Day of week with Monday = 0 (1970-01-01 was a Thursday, hence `+ 3`). -/
def dowOf (d : Int) : Int := (d + 3) % 7

/-- The Thursday of the Monday-based week containing `d`. -/
def thuOf (d : Int) : Int := d - dowOf d + 3

/-- Index of the Monday-based week containing `d`. -/
def weekIdxOf (d : Int) : Int := (d + 3) / 7

/-- ISO-8601 week-year of a day index (Go `Time.ISOWeek` first result): the
year of the Thursday of the containing week. -/
def isoYearOf (d : Int) : Int := yearOf (thuOf d)

/-- ISO-8601 week number of a day index (Go `Time.ISOWeek` second result). -/
def isoWeekOf (d : Int) : Int := (yearDayOf (thuOf d) - 1) / 7 + 1

/-! ## Tier triggers (`Service.RegularJob`, `src/service.go`)

In `RegularJob` the `daily` trigger compares `Year`/`YearDay` of the tick
with those of `time.Unix(lrt, 0)`, the `weekly` trigger compares `ISOWeek`
pairs, and the `monthly` trigger compares `Year`/`Month`; the tier fires
when the compared values differ. -/

/-- Daily-tier trigger: fires when year or day-of-year differ between the
tick and the last-run timestamp (both in Unix seconds). -/
def firesDaily (tick lrt : Int) : Bool :=
  decide (yearOf (dayOf tick) ≠ yearOf (dayOf lrt) ∨
    yearDayOf (dayOf tick) ≠ yearDayOf (dayOf lrt))

/-- Weekly-tier trigger: fires when the ISO week-year or ISO week differ. -/
def firesWeekly (tick lrt : Int) : Bool :=
  decide (isoYearOf (dayOf tick) ≠ isoYearOf (dayOf lrt) ∨
    isoWeekOf (dayOf tick) ≠ isoWeekOf (dayOf lrt))

/-- Monthly-tier trigger: fires when year or month differ. -/
def firesMonthly (tick lrt : Int) : Bool :=
  decide (yearOf (dayOf tick) ≠ yearOf (dayOf lrt) ∨
    monthOf (dayOf tick) ≠ monthOf (dayOf lrt))

/-! ## Data model (`src/policy.go`)

`Plan.Keep` holds one optional unsigned keep count per tier; a Go `*uint`
is modelled as `Option Nat`. -/

/-- Per-tier optional keep counts (`Plan.Keep` in `policy.go`). -/
structure KeepCounts where
  frequent : Option Nat
  hourly : Option Nat
  daily : Option Nat
  weekly : Option Nat
  monthly : Option Nat
deriving DecidableEq, Repr

/-- Per-target plan (`Plan` in `policy.go`). -/
structure Plan where
  recursive : Bool
  keep : KeepCounts
deriving DecidableEq, Repr

/-! ## Retention engine model (`Service.Enforce`, `src/service.go`)

The loop body of `Enforce` for one target is modelled as a function from
the target, its plan, and the outcomes of the storage-adapter calls (oracle
parameters: did the create succeed, what listing did `ListSnapshotNames`
return or `none` for an error, did each destroy succeed) to the trace of
adapter calls and journal events it performs, in order.  `Enforce` itself
is the concatenation of the per-target traces over the policy's target
list. -/

/-- Journal event types (`EventType` in `src/service.go`). -/
inductive EventType where
  | createSnapshot
  | listSnapshotNames
  | destroySnapshot
  | getPoolProperty
  | setPoolProperty
deriving DecidableEq, Repr

/-- One observable action of the retention engine: a storage-adapter call or
a journal emit (`Service.Emit`, with the event's success flag). -/
inductive Act where
  | callCreate (target pfx tag : String) (localTime recursive : Bool)
  | callList (target tag : String)
  | callDestroy (target name : String) (recursive : Bool)
  | emit (ty : EventType) (target job : String) (recursive success : Bool)
deriving DecidableEq, Repr

/-- Trace of the `Enforce` loop body for a single target `t` with plan `p`
(`src/service.go:72-108`): compute `(tag, keep)`; skip if `keep` is nil;
create a snapshot (and emit) when `keep > 0`; list (and emit), aborting this
target on listing failure; if more than `keep` names were listed, destroy
(and emit) each name at index ≥ `keep`. -/
def enforceTarget (pfx : String) (localTime : Bool) (keepFn : Plan → String × Option Nat)
    (t : String) (p : Plan) (createOk : Bool) (listRes : Option (List String))
    (destroyOk : String → Bool) : List Act :=
  match (keepFn p).2 with
  | none => []
  | some k =>
    (if 0 < k then
      [Act.callCreate t pfx (keepFn p).1 localTime p.recursive,
       Act.emit EventType.createSnapshot t (keepFn p).1 p.recursive createOk]
     else []) ++
    [Act.callList t (keepFn p).1,
     Act.emit EventType.listSnapshotNames t (keepFn p).1 false listRes.isSome] ++
    (match listRes with
     | none => []
     | some names =>
       if names.length ≤ k then []
       else (names.drop k).flatMap (fun n =>
         [Act.callDestroy t n p.recursive,
          Act.emit EventType.destroySnapshot (t ++ "@" ++ n) (keepFn p).1 p.recursive
            (destroyOk n)]))

/-- Trace of a full `Enforce` run over the policy's target list; the
per-target adapter outcomes are oracle functions of the target. -/
def enforce (pfx : String) (localTime : Bool) (targets : List (String × Plan))
    (keepFn : Plan → String × Option Nat) (createOk : String → Bool)
    (listRes : String → Option (List String)) (destroyOk : String → String → Bool) : List Act :=
  targets.flatMap (fun tp =>
    enforceTarget pfx localTime keepFn tp.1 tp.2 (createOk tp.1) (listRes tp.1) (destroyOk tp.1))

/-- Tier selector used by `FrequentJob` (`src/service.go:110-114`). -/
def keepFrequent (p : Plan) : String × Option Nat := ("frequent", p.keep.frequent)

/-- Tier selector for the hourly tier in `RegularJob`. -/
def keepHourly (p : Plan) : String × Option Nat := ("hourly", p.keep.hourly)

/-- Tier selector for the daily tier in `RegularJob`. -/
def keepDaily (p : Plan) : String × Option Nat := ("daily", p.keep.daily)

/-- Tier selector for the weekly tier in `RegularJob`. -/
def keepWeekly (p : Plan) : String × Option Nat := ("weekly", p.keep.weekly)

/-- Tier selector for the monthly tier in `RegularJob`. -/
def keepMonthly (p : Plan) : String × Option Nat := ("monthly", p.keep.monthly)

/-- Names destroyed in a trace, in order. -/
def destroysOf (tr : List Act) : List String :=
  tr.filterMap (fun a => match a with | Act.callDestroy _ n _ => some n | _ => none)

/-- Snapshot-creation calls in a trace. -/
def createsOf (tr : List Act) : List Act :=
  tr.filter (fun a => match a with | Act.callCreate _ _ _ _ _ => true | _ => false)

/-! ## Calendar phase of `RegularJob` (`src/service.go:116-205`)

After running the frequent and hourly tiers, `RegularJob` reads, for each
pool and each of the tags `daily`/`weekly`/`monthly`, the pool property
`org.keepd:last<tag>job`; every successfully read and parsed value raises
that tag's `LastRunTimestamp` (which starts at 0) when larger.  Then for
each tag whose trigger fires against its accumulated timestamp it runs
`Enforce` for the tag and writes the tick's Unix seconds into that tag's
property on every pool.  The adapter reads are modelled by an oracle
`stored : pool → key → Option Int`, where `some v` means `GetPoolProperty`
succeeded and `strconv.ParseInt` parsed the value as `v`, and `none` covers
both a failed read and an unparseable value (both of which the code skips).
The written value is kept as the integer tick (the code writes its decimal
string). -/

/-- Pool-property key for a tier tag: the source's fixed
`keyFormat = "org.keepd:last%sjob"`, which does not mention the policy
prefix. -/
def poolPropKey (tag : String) : String := "org.keepd:last" ++ tag ++ "job"

/-- The three calendar tier tags handled by `jobsByTag`. -/
def calendarTags : List String := ["daily", "weekly", "monthly"]

/-- Trigger function attached to each calendar tag in `jobsByTag`. -/
def triggerFor (tag : String) : Int → Int → Bool :=
  if tag = "daily" then firesDaily
  else if tag = "weekly" then firesWeekly
  else if tag = "monthly" then firesMonthly
  else fun _ _ => false

/-- One pool's contribution to a tag's `LastRunTimestamp`: a successfully
read-and-parsed value replaces the accumulator when larger
(`src/service.go:161-184`). -/
def lastRunStep (stored : String → String → Option Int) (key : String)
    (acc : Int) (q : String) : Int :=
  match stored q key with
  | some v => if v > acc then v else acc
  | none => acc

/-- Accumulated `LastRunTimestamp` for a key: fold the per-pool step over
the pools starting at 0. -/
def lastRunOf (pools : List String) (stored : String → String → Option Int)
    (key : String) : Int :=
  pools.foldl (lastRunStep stored key) 0

/-- Calendar phase of `RegularJob`: for each calendar tag in order, if its
trigger fires against the accumulated last-run timestamp, record the tag as
enforced and append one property write `(pool, key, tick)` per pool.  The
policy prefix is available to the service but unused by the key format,
exactly as in the source. -/
def regularJobCalendar (pfx : String) (tick : Int) (pools : List String)
    (stored : String → String → Option Int) :
    List String × List (String × String × Int) :=
  calendarTags.foldl (fun acc tag =>
    if triggerFor tag tick (lastRunOf pools stored (poolPropKey tag)) then
      (acc.1 ++ [tag], acc.2 ++ pools.map (fun q => (q, poolPropKey tag, tick)))
    else acc) ([], [])

/-- Modelled from the spec: the pool-property key as claim C3 words it,
`org.<prefix>d:last<tier>job`, embedding the policy's configured prefix.
For comparison with `poolPropKey`, which is what the source uses. -/
def specPoolPropKey (pfx tag : String) : String :=
  "org." ++ pfx ++ "d:last" ++ tag ++ "job"

/-- Modelled from the spec: claim C2's effective last-run, the maximum over
all pools of the parseable stored timestamps, and 0 when none parse.  For
comparison with `lastRunOf`, which folds the maximum starting from 0. -/
def specLastRun (pools : List String) (stored : String → String → Option Int)
    (key : String) : Int :=
  match pools.filterMap (fun q => stored q key) with
  | [] => 0
  | v :: vs => vs.foldl max v

/-! ## Policy loading (`LoadPolicy`, `src/policy.go`)

`LoadPolicy` opens and JSON-decodes the policy file and then validates it:
the prefix must be non-empty and consist of `a`-`z` only; group members are
folded into the target map, failing on any member already present (whether
from the top-level map, from an earlier group, or from an earlier position
in the same member list).  We embed the validation phase: the input is the
decoded raw policy (Go maps are modelled as association lists; the
possibly-nil `Targets` map as an `Option`). -/

/-- One group of the raw policy: member targets sharing a plan. -/
structure TargetGroup where
  members : List String
  plan : Plan
deriving DecidableEq, Repr

/-- Decoded policy file before validation (`Policy` as filled by
`json.Decode` in `policy.go`). -/
structure RawPolicy where
  prefixStr : String
  localTime : Bool
  targets : Option (List (String × Plan))
  groups : List (String × TargetGroup)
deriving DecidableEq, Repr

/-- Validated in-memory policy: groups flattened into the target list. -/
structure Policy where
  prefixStr : String
  localTime : Bool
  targets : List (String × Plan)
deriving DecidableEq, Repr

/-- Keys of an association list of targets. -/
def keysOf (l : List (String × Plan)) : List String := l.map Prod.fst

/-- Insert a group's members one by one into the accumulated target list,
failing on a member that is already a key (`policy.go:59-66`). -/
def insertMembers (gname : String) (plan : Plan) (acc : List (String × Plan)) :
    List String → Except String (List (String × Plan))
  | [] => Except.ok acc
  | m :: ms =>
    if m ∈ keysOf acc then
      Except.error ("group " ++ gname ++ " contains previously specified target " ++ m)
    else insertMembers gname plan ((m, plan) :: acc) ms

/-- Fold all groups into the accumulated target list. -/
def insertGroups (acc : List (String × Plan)) :
    List (String × TargetGroup) → Except String (List (String × Plan))
  | [] => Except.ok acc
  | (gname, g) :: gs =>
    match insertMembers gname g.plan acc g.members with
    | Except.error e => Except.error e
    | Except.ok acc2 => insertGroups acc2 gs

/-- Validation phase of `LoadPolicy` (`policy.go:47-69`): reject an empty
prefix, reject a prefix with a character outside `a`-`z`, then flatten the
groups into the (possibly nil, hence defaulted) target map. -/
def loadPolicy (p : RawPolicy) : Except String Policy :=
  if p.prefixStr = "" then Except.error "prefix is not specified"
  else if p.prefixStr.toList.any (fun c => decide (c < 'a' ∨ 'z' < c)) then
    Except.error "prefix contains forbidden characters (not a-z)"
  else
    match insertGroups (p.targets.getD []) p.groups with
    | Except.error e => Except.error e
    | Except.ok ts => Except.ok ⟨p.prefixStr, p.localTime, ts⟩

/-- Whether `loadPolicy` succeeds. -/
def loadOk (p : RawPolicy) : Bool :=
  match loadPolicy p with
  | Except.ok _ => true
  | Except.error _ => false

/-- All member targets contributed by the groups, in order. -/
def allMembers (gs : List (String × TargetGroup)) : List String :=
  gs.flatMap (fun g => g.2.members)

/-! ## Snapshot name codec (`CreateSnapshot` in `src/zfs.go`,
`NewSnapshotMatcher` in `src/service.go`)

`CreateSnapshot` formats the snapshot name as
`<prefix>.<YYYY-MM-DD>.<HH:MM:SS>.<tier>` (Go layout
`"2006-01-02.15:04:05"` interpolated between prefix and tag).
`NewSnapshotMatcher` builds, for each tier tag, the RE2 pattern
`(?m)<prefix>\.\d{4}-\d{2}-\d{2}\.\d{2}:\d{2}:\d{2}\.<tag>$`.  Names are
modelled as `List Char`.  On a newline-free subject (snapshot names contain
no newline) the pattern matches exactly when some suffix of the subject is
literally `prefix`, a dot, the dated digit groups, a dot, and the tag,
ending at the end of the subject; `matchesTag` states that semantics. -/

/-- RE2 `\d`: the ASCII digits. -/
def isDigitCh (c : Char) : Prop := '0' ≤ c ∧ c ≤ '9'

instance (c : Char) : Decidable (isDigitCh c) := by
  unfold isDigitCh
  infer_instance

/-- Two-digit zero-padded decimal (Go `01`/`02`/`15`/`04`/`05` verbs), for
values below 100. -/
def pad2 (n : Nat) : List Char := [Nat.digitChar (n / 10), Nat.digitChar (n % 10)]

/-- Four-digit zero-padded decimal (Go `2006` verb), for values below
10000. -/
def pad4 (n : Nat) : List Char :=
  [Nat.digitChar (n / 1000), Nat.digitChar (n / 100 % 10),
   Nat.digitChar (n / 10 % 10), Nat.digitChar (n % 10)]

/-- Snapshot name built by `CreateSnapshot`:
`<prefix>.<YYYY-MM-DD>.<HH:MM:SS>.<tier>`. -/
def encodeName (pfx tag : List Char) (y mo d h mi s : Nat) : List Char :=
  pfx ++ '.' :: (pad4 y ++ '-' :: (pad2 mo ++ '-' :: (pad2 d ++ '.' :: (pad2 h ++ ':' ::
    (pad2 mi ++ ':' :: (pad2 s ++ '.' :: tag))))))

/-- Semantics of the tier matcher regex on a newline-free subject: some
suffix of the name is the prefix, a dot, a dash-separated 4-2-2 digit date,
a dot, a colon-separated 2-2-2 digit time, a dot, and the tag, reaching the
end of the name (the `$` anchor). -/
def matchesTag (pfx tag name : List Char) : Prop :=
  ∃ pre d4 m2 a2 h2 n2 s2 : List Char,
    d4.length = 4 ∧ m2.length = 2 ∧ a2.length = 2 ∧ h2.length = 2 ∧ n2.length = 2
    ∧ s2.length = 2
    ∧ (∀ c ∈ d4, isDigitCh c) ∧ (∀ c ∈ m2, isDigitCh c) ∧ (∀ c ∈ a2, isDigitCh c)
    ∧ (∀ c ∈ h2, isDigitCh c) ∧ (∀ c ∈ n2, isDigitCh c) ∧ (∀ c ∈ s2, isDigitCh c)
    ∧ name = pre ++ pfx ++ '.' :: (d4 ++ '-' :: (m2 ++ '-' :: (a2 ++ '.' :: (h2 ++ ':' ::
        (n2 ++ ':' :: (s2 ++ '.' :: tag))))))

/-- The five tier tags, as `NewSnapshotMatcher` derives them from the
lowercased field names of `Plan.Keep`. -/
def tierTags : List (List Char) :=
  [String.toList "frequent", String.toList "hourly", String.toList "daily",
   String.toList "weekly", String.toList "monthly"]

/-! ## Theorems: calendar arithmetic -/

/-- Structure of the 400/100/4/1 decomposition: the layer quotients are in
range and reassemble the day index. -/
theorem calendarDecomp (d : Int) :
    d = 11323 + 146097 * cOf d + 36524 * n2Of d + 1461 * n3Of d + 365 * n4Of d + yday0Of d
    ∧ 0 ≤ n2Of d ∧ n2Of d ≤ 3 ∧ 0 ≤ n3Of d ∧ n3Of d ≤ 24 ∧ 0 ≤ n4Of d ∧ n4Of d ≤ 3
    ∧ 0 ≤ yday0Of d ∧ yday0Of d ≤ 365 := by
  unfold yday0Of n4Of r3Of n3Of r2Of n2Of r1Of cOf ddOf
  omega

/-- January 1 of the year named by the decomposition sits exactly at the
start of the decomposition's remainder. -/
theorem jan1s_combo (c a b e : Int) (ha : 0 ≤ a) (ha' : a ≤ 3) (hb : 0 ≤ b) (hb' : b ≤ 24)
    (he : 0 ≤ e) (he' : e ≤ 3) :
    jan1s (2001 + 400 * c + 100 * a + 4 * b + e) =
      11323 + 146097 * c + 36524 * a + 1461 * b + 365 * e := by
  unfold jan1s
  omega

/-- Consecutive January firsts are 365 or 366 days apart. -/
theorem jan1s_spacing (y : Int) : jan1s y + 365 ≤ jan1s (y + 1) ∧ jan1s (y + 1) ≤ jan1s y + 366 := by
  unfold jan1s
  omega

/-- January firsts are monotone in the year. -/
theorem jan1s_mono {y y' : Int} (h : y ≤ y') : jan1s y ≤ jan1s y' := by
  unfold jan1s
  omega

/-- Roundtrip: every day index is January 1 of its year plus its zero-based
day of the year. -/
theorem jan1s_yearOf (d : Int) : jan1s (yearOf d) + yday0Of d = d := by
  have h := calendarDecomp d
  have h2 := jan1s_combo (cOf d) (n2Of d) (n3Of d) (n4Of d) h.2.1 h.2.2.1 h.2.2.2.1
    h.2.2.2.2.1 h.2.2.2.2.2.1 h.2.2.2.2.2.2.1
  unfold yearOf
  omega

/-- Bounds on the zero-based day of the year. -/
theorem yday0_bounds (d : Int) : 0 ≤ yday0Of d ∧ yday0Of d ≤ 365 := by
  have h := calendarDecomp d
  exact ⟨h.2.2.2.2.2.2.2.1, h.2.2.2.2.2.2.2.2⟩

/-- The year of a day index is monotone. -/
theorem yearOf_mono {d e : Int} (h : d ≤ e) : yearOf d ≤ yearOf e := by
  by_contra hc
  push_neg at hc
  have h1 : yearOf e + 1 ≤ yearOf d := hc
  have h2 := jan1s_mono h1
  have h3 := jan1s_spacing (yearOf e)
  have h4 := jan1s_yearOf d
  have h5 := jan1s_yearOf e
  have h6 := yday0_bounds d
  have h7 := yday0_bounds e
  have hde : d = e := by omega
  rw [hde] at hc
  omega

/-- Two day indices with the same year and the same day of the year are
equal. -/
theorem yearYday_inj {a b : Int} (hy : yearOf a = yearOf b) (hd : yday0Of a = yday0Of b) :
    a = b := by
  have h1 := jan1s_yearOf a
  have h2 := jan1s_yearOf b
  rw [hy] at h1
  omega

/-- A day index between two day indices of the same year has that year. -/
theorem yearOf_sandwich {a b c : Int} (h1 : a ≤ b) (h2 : b ≤ c) (h : yearOf a = yearOf c) :
    yearOf b = yearOf a := by
  have m1 := yearOf_mono h1
  have m2 := yearOf_mono h2
  omega

/-- Interval characterization of the month table. -/
theorem monthTable_cases (z : Int) :
    (z < 31 ∧ monthTable z = 1) ∨ (31 ≤ z ∧ z < 59 ∧ monthTable z = 2) ∨
    (59 ≤ z ∧ z < 90 ∧ monthTable z = 3) ∨ (90 ≤ z ∧ z < 120 ∧ monthTable z = 4) ∨
    (120 ≤ z ∧ z < 151 ∧ monthTable z = 5) ∨ (151 ≤ z ∧ z < 181 ∧ monthTable z = 6) ∨
    (181 ≤ z ∧ z < 212 ∧ monthTable z = 7) ∨ (212 ≤ z ∧ z < 243 ∧ monthTable z = 8) ∨
    (243 ≤ z ∧ z < 273 ∧ monthTable z = 9) ∨ (273 ≤ z ∧ z < 304 ∧ monthTable z = 10) ∨
    (304 ≤ z ∧ z < 334 ∧ monthTable z = 11) ∨ (334 ≤ z ∧ monthTable z = 12) := by
  rcases lt_or_le z 31 with h31 | h31
  · exact Or.inl ⟨h31, by rw [monthTable, if_pos h31]⟩
  rcases lt_or_le z 59 with h59 | h59
  · refine Or.inr (Or.inl ⟨h31, h59, ?_⟩)
    rw [monthTable, if_neg (not_lt.mpr h31), if_pos h59]
  rcases lt_or_le z 90 with h90 | h90
  · refine Or.inr (Or.inr (Or.inl ⟨h59, h90, ?_⟩))
    rw [monthTable, if_neg (not_lt.mpr h31), if_neg (not_lt.mpr h59), if_pos h90]
  rcases lt_or_le z 120 with h120 | h120
  · refine Or.inr (Or.inr (Or.inr (Or.inl ⟨h90, h120, ?_⟩)))
    rw [monthTable, if_neg (not_lt.mpr h31), if_neg (not_lt.mpr h59), if_neg (not_lt.mpr h90), if_pos h120]
  rcases lt_or_le z 151 with h151 | h151
  · refine Or.inr (Or.inr (Or.inr (Or.inr (Or.inl ⟨h120, h151, ?_⟩))))
    rw [monthTable, if_neg (not_lt.mpr h31), if_neg (not_lt.mpr h59), if_neg (not_lt.mpr h90), if_neg (not_lt.mpr h120), if_pos h151]
  rcases lt_or_le z 181 with h181 | h181
  · refine Or.inr (Or.inr (Or.inr (Or.inr (Or.inr (Or.inl ⟨h151, h181, ?_⟩)))))
    rw [monthTable, if_neg (not_lt.mpr h31), if_neg (not_lt.mpr h59), if_neg (not_lt.mpr h90), if_neg (not_lt.mpr h120), if_neg (not_lt.mpr h151), if_pos h181]
  rcases lt_or_le z 212 with h212 | h212
  · refine Or.inr (Or.inr (Or.inr (Or.inr (Or.inr (Or.inr (Or.inl ⟨h181, h212, ?_⟩))))))
    rw [monthTable, if_neg (not_lt.mpr h31), if_neg (not_lt.mpr h59), if_neg (not_lt.mpr h90), if_neg (not_lt.mpr h120), if_neg (not_lt.mpr h151), if_neg (not_lt.mpr h181), if_pos h212]
  rcases lt_or_le z 243 with h243 | h243
  · refine Or.inr (Or.inr (Or.inr (Or.inr (Or.inr (Or.inr (Or.inr (Or.inl ⟨h212, h243, ?_⟩)))))))
    rw [monthTable, if_neg (not_lt.mpr h31), if_neg (not_lt.mpr h59), if_neg (not_lt.mpr h90), if_neg (not_lt.mpr h120), if_neg (not_lt.mpr h151), if_neg (not_lt.mpr h181), if_neg (not_lt.mpr h212), if_pos h243]
  rcases lt_or_le z 273 with h273 | h273
  · refine Or.inr (Or.inr (Or.inr (Or.inr (Or.inr (Or.inr (Or.inr (Or.inr (Or.inl ⟨h243, h273, ?_⟩))))))))
    rw [monthTable, if_neg (not_lt.mpr h31), if_neg (not_lt.mpr h59), if_neg (not_lt.mpr h90), if_neg (not_lt.mpr h120), if_neg (not_lt.mpr h151), if_neg (not_lt.mpr h181), if_neg (not_lt.mpr h212), if_neg (not_lt.mpr h243), if_pos h273]
  rcases lt_or_le z 304 with h304 | h304
  · refine Or.inr (Or.inr (Or.inr (Or.inr (Or.inr (Or.inr (Or.inr (Or.inr (Or.inr (Or.inl ⟨h273, h304, ?_⟩)))))))))
    rw [monthTable, if_neg (not_lt.mpr h31), if_neg (not_lt.mpr h59), if_neg (not_lt.mpr h90), if_neg (not_lt.mpr h120), if_neg (not_lt.mpr h151), if_neg (not_lt.mpr h181), if_neg (not_lt.mpr h212), if_neg (not_lt.mpr h243), if_neg (not_lt.mpr h273), if_pos h304]
  rcases lt_or_le z 334 with h334 | h334
  · refine Or.inr (Or.inr (Or.inr (Or.inr (Or.inr (Or.inr (Or.inr (Or.inr (Or.inr (Or.inr (Or.inl ⟨h304, h334, ?_⟩))))))))))
    rw [monthTable, if_neg (not_lt.mpr h31), if_neg (not_lt.mpr h59), if_neg (not_lt.mpr h90), if_neg (not_lt.mpr h120), if_neg (not_lt.mpr h151), if_neg (not_lt.mpr h181), if_neg (not_lt.mpr h212), if_neg (not_lt.mpr h243), if_neg (not_lt.mpr h273), if_neg (not_lt.mpr h304), if_pos h334]
  refine Or.inr (Or.inr (Or.inr (Or.inr (Or.inr (Or.inr (Or.inr (Or.inr (Or.inr (Or.inr (Or.inr ⟨h334, ?_⟩))))))))))
  rw [monthTable, if_neg (not_lt.mpr h31), if_neg (not_lt.mpr h59), if_neg (not_lt.mpr h90), if_neg (not_lt.mpr h120), if_neg (not_lt.mpr h151), if_neg (not_lt.mpr h181), if_neg (not_lt.mpr h212), if_neg (not_lt.mpr h243), if_neg (not_lt.mpr h273), if_neg (not_lt.mpr h304), if_neg (not_lt.mpr h334)]

/-- The non-leap month table is monotone in the day of the year. -/
theorem monthTable_mono {z z' : Int} (h : z ≤ z') : monthTable z ≤ monthTable z' := by
  have h1 := monthTable_cases z
  have h2 := monthTable_cases z'
  omega

/-- Month as a function of the day of the year (leapness fixed) is
monotone. -/
theorem monthFromYday_mono (leap : Bool) {z z' : Int} (h : z ≤ z') :
    monthFromYday leap z ≤ monthFromYday leap z' := by
  cases leap with
  | false => simpa [monthFromYday] using monthTable_mono h
  | true =>
    have c1 := monthTable_cases (z - 1)
    have c2 := monthTable_cases z
    have c3 := monthTable_cases (z' - 1)
    have c4 := monthTable_cases z'
    simp only [monthFromYday, true_and]
    split_ifs <;> omega

/-- The Thursday of the containing week is seven times the week index. -/
theorem thuOf_eq (d : Int) : thuOf d = 7 * weekIdxOf d := by
  unfold thuOf dowOf weekIdxOf
  omega

/-- The week index is monotone. -/
theorem weekIdxOf_mono {d e : Int} (h : d ≤ e) : weekIdxOf d ≤ weekIdxOf e := by
  unfold weekIdxOf
  omega

/-- The day index is monotone in the timestamp. -/
theorem dayOf_mono {s t : Int} (h : s ≤ t) : dayOf s ≤ dayOf t := by
  unfold dayOf
  omega

/-! ## Theorems: model sanity on known dates -/

example : yearOf 0 = 1970 ∧ monthOf 0 = 1 ∧ yearDayOf 0 = 1 := by decide

example : yearOf (-1) = 1969 ∧ monthOf (-1) = 12 ∧ yearDayOf (-1) = 365 := by decide

example : yearOf 11016 = 2000 ∧ monthOf 11016 = 2 ∧ yearDayOf 11016 = 60 := by decide

example : yearOf 11017 = 2000 ∧ monthOf 11017 = 3 ∧ yearDayOf 11017 = 61 := by decide

example : yearOf 47540 = 2100 ∧ monthOf 47540 = 2 ∧ yearDayOf 47540 = 59 := by decide

example : yearOf 47541 = 2100 ∧ monthOf 47541 = 3 ∧ yearDayOf 47541 = 60 := by decide

example : isoYearOf 18628 = 2020 ∧ isoWeekOf 18628 = 53 := by decide

example : isoYearOf 18260 = 2020 ∧ isoWeekOf 18260 = 1 := by decide

example : isoYearOf 2557 = 1976 ∧ isoWeekOf 2557 = 53 := by decide

example : isoYearOf 3 = 1970 ∧ isoWeekOf 3 = 1 ∧ isoYearOf 4 = 1970 ∧ isoWeekOf 4 = 2 := by decide

/-- Zero-based day of the year, written through the roundtrip. -/
theorem yday0_eq (d : Int) : yday0Of d = d - jan1s (yearOf d) := by
  have := jan1s_yearOf d
  omega

/-- If a day has the same year and day-of-year as a later day, so does every
day in between. -/
theorem daily_const {ld ld' td : Int} (h1 : ld ≤ ld') (h2 : ld' ≤ td)
    (hy : yearOf td = yearOf ld) (hd : yday0Of td = yday0Of ld) :
    yearOf td = yearOf ld' ∧ yday0Of td = yday0Of ld' := by
  have heq : td = ld := yearYday_inj hy hd
  have : ld' = td := by omega
  rw [this]
  exact ⟨rfl, rfl⟩

/-- Two days in the same ISO week have the same Thursday. -/
theorem thuOf_inj {a b : Int} (hy : isoYearOf a = isoYearOf b)
    (hw : isoWeekOf a = isoWeekOf b) : thuOf a = thuOf b := by
  unfold isoYearOf at hy
  unfold isoWeekOf yearDayOf at hw
  rw [yday0_eq (thuOf a), yday0_eq (thuOf b), hy] at hw
  rw [thuOf_eq a, thuOf_eq b] at hy hw ⊢
  have j := jan1s (yearOf (7 * weekIdxOf b))
  omega

/-- If a day is in the same ISO week as a later day, so is every day in
between. -/
theorem weekly_const {ld ld' td : Int} (h1 : ld ≤ ld') (h2 : ld' ≤ td)
    (hy : isoYearOf td = isoYearOf ld) (hw : isoWeekOf td = isoWeekOf ld) :
    isoYearOf td = isoYearOf ld' ∧ isoWeekOf td = isoWeekOf ld' := by
  have hthu : thuOf td = thuOf ld := thuOf_inj hy hw
  rw [thuOf_eq td, thuOf_eq ld] at hthu
  have m1 := weekIdxOf_mono h1
  have m2 := weekIdxOf_mono h2
  have : weekIdxOf ld' = weekIdxOf td := by omega
  have hthu' : thuOf ld' = thuOf td := by rw [thuOf_eq ld', thuOf_eq td, this]
  constructor
  · unfold isoYearOf
    rw [hthu']
  · unfold isoWeekOf
    rw [hthu']

/-- If a day has the same year and month as a later day, so does every day
in between. -/
theorem monthly_const {ld ld' td : Int} (h1 : ld ≤ ld') (h2 : ld' ≤ td)
    (hy : yearOf td = yearOf ld) (hm : monthOf td = monthOf ld) :
    yearOf td = yearOf ld' ∧ monthOf td = monthOf ld' := by
  have hy' : yearOf ld' = yearOf ld := yearOf_sandwich h1 h2 hy.symm
  have hyd : yday0Of ld ≤ yday0Of ld' ∧ yday0Of ld' ≤ yday0Of td := by
    have e1 := yday0_eq ld
    have e2 := yday0_eq ld'
    have e3 := yday0_eq td
    rw [hy'] at e2
    rw [← hy] at e1 e2
    omega
  refine ⟨by omega, ?_⟩
  unfold monthOf
  rw [hy', ← hy]
  have l1 := monthFromYday_mono (isLeapYear (yearOf td)) hyd.1
  have l2 := monthFromYday_mono (isLeapYear (yearOf td)) hyd.2
  unfold monthOf at hm
  rw [← hy] at hm
  omega

/-- Daily trigger: a non-firing last-run stays non-firing for any later
last-run not beyond the tick. -/
theorem firesDaily_not_of_not {tick lr lr' : Int} (h1 : lr ≤ lr') (h2 : lr' ≤ tick)
    (h : firesDaily tick lr = false) : firesDaily tick lr' = false := by
  simp only [firesDaily, decide_eq_false_iff_not, not_or, ne_eq, not_not] at h ⊢
  have d1 := dayOf_mono h1
  have d2 := dayOf_mono h2
  have hc := daily_const d1 d2 h.1 (by have := h.2; unfold yearDayOf at this; omega)
  refine ⟨hc.1, ?_⟩
  unfold yearDayOf
  omega

/-- Weekly trigger: a non-firing last-run stays non-firing for any later
last-run not beyond the tick. -/
theorem firesWeekly_not_of_not {tick lr lr' : Int} (h1 : lr ≤ lr') (h2 : lr' ≤ tick)
    (h : firesWeekly tick lr = false) : firesWeekly tick lr' = false := by
  simp only [firesWeekly, decide_eq_false_iff_not, not_or, ne_eq, not_not] at h ⊢
  exact weekly_const (dayOf_mono h1) (dayOf_mono h2) h.1 h.2

/-- Monthly trigger: a non-firing last-run stays non-firing for any later
last-run not beyond the tick. -/
theorem firesMonthly_not_of_not {tick lr lr' : Int} (h1 : lr ≤ lr') (h2 : lr' ≤ tick)
    (h : firesMonthly tick lr = false) : firesMonthly tick lr' = false := by
  simp only [firesMonthly, decide_eq_false_iff_not, not_or, ne_eq, not_not] at h ⊢
  exact monthly_const (dayOf_mono h1) (dayOf_mono h2) h.1 h.2

/-! ## Claim C5: monotonicity of calendar-tier triggers -/

/-- Claim C5 as stated is false: with tick `43200` (midday 1970-01-01),
`last_run = 0` (same day) and `last_run' = 86401` (1970-01-02, a later
timestamp), the daily condition fires at `last_run'` but not at `last_run`,
refuting `last_run' ≥ last_run → fires(t, last_run') → fires(t, last_run)`. -/
theorem C5_counterexample :
    ¬ (∀ tick lr lr' : Int, lr ≤ lr' → firesDaily tick lr' = true → firesDaily tick lr = true) := by
  intro h
  have hfalse : firesDaily 43200 0 = false := by decide
  have htrue : firesDaily 43200 86401 = true := by decide
  have := h 43200 0 86401 (by omega) htrue
  rw [this] at hfalse
  exact absurd hfalse (by simp)

/-- Claim C5, amended: for every calendar tier and tick `t`, and all last-run
timestamps `last_run ≤ last_run' ≤ t`, if the tier's condition fires at
`(t, last_run')` then it fires at `(t, last_run)`. -/
theorem C5_trigger_monotone (tick lr lr' : Int) (h1 : lr ≤ lr') (h2 : lr' ≤ tick) :
    (firesDaily tick lr' = true → firesDaily tick lr = true) ∧
    (firesWeekly tick lr' = true → firesWeekly tick lr = true) ∧
    (firesMonthly tick lr' = true → firesMonthly tick lr = true) := by
  refine ⟨?_, ?_, ?_⟩ <;> intro hf
  · cases hd : firesDaily tick lr with
    | true => rfl
    | false => rw [firesDaily_not_of_not h1 h2 hd] at hf; exact hf.symm ▸ rfl
  · cases hd : firesWeekly tick lr with
    | true => rfl
    | false => rw [firesWeekly_not_of_not h1 h2 hd] at hf; exact hf.symm ▸ rfl
  · cases hd : firesMonthly tick lr with
    | true => rfl
    | false => rw [firesMonthly_not_of_not h1 h2 hd] at hf; exact hf.symm ▸ rfl

/-- Witness for the amended claim C5 at a concrete instance. -/
theorem C5_trigger_monotone_witness :
    (100000 : Int) ≤ 150000 ∧ (150000 : Int) ≤ 200000 ∧
    ((firesDaily 200000 150000 = true → firesDaily 200000 100000 = true) ∧
      (firesWeekly 200000 150000 = true → firesWeekly 200000 100000 = true) ∧
      (firesMonthly 200000 150000 = true → firesMonthly 200000 100000 = true)) :=
  ⟨by omega, by omega, C5_trigger_monotone 200000 100000 150000 (by omega) (by omega)⟩

/-! ## Theorems: retention engine -/

/-- Destroyed names distribute over trace concatenation. -/
theorem destroysOf_append (tr1 tr2 : List Act) :
    destroysOf (tr1 ++ tr2) = destroysOf tr1 ++ destroysOf tr2 :=
  List.filterMap_append _ _ _

/-- Creation calls distribute over trace concatenation. -/
theorem createsOf_append (tr1 tr2 : List Act) :
    createsOf (tr1 ++ tr2) = createsOf tr1 ++ createsOf tr2 :=
  List.filter_append _ _

/-- The destroy loop destroys exactly the names it is given, in order. -/
theorem destroysOf_destroyList (t tag : String) (r : Bool) (dOk : String → Bool) :
    ∀ l : List String, destroysOf (l.flatMap (fun n =>
      [Act.callDestroy t n r,
       Act.emit EventType.destroySnapshot (t ++ "@" ++ n) tag r (dOk n)])) = l := by
  intro l
  induction l with
  | nil => rfl
  | cons x xs ih =>
    rw [List.flatMap_cons, destroysOf_append, ih]
    rfl

/-- The destroy loop performs no creation calls. -/
theorem createsOf_destroyList (t tag : String) (r : Bool) (dOk : String → Bool) :
    ∀ l : List String, createsOf (l.flatMap (fun n =>
      [Act.callDestroy t n r,
       Act.emit EventType.destroySnapshot (t ++ "@" ++ n) tag r (dOk n)])) = [] := by
  intro l
  induction l with
  | nil => rfl
  | cons x xs ih =>
    rw [List.flatMap_cons, createsOf_append, ih]
    rfl

/-- Destroyed names of the per-target trace when the keep count is present
and the listing succeeds: exactly the listed names from index `k` on. -/
theorem destroysOf_enforceTarget_some (pfx : String) (localTime : Bool)
    (keepFn : Plan → String × Option Nat) (t : String) (p : Plan) (createOk : Bool)
    (names : List String) (destroyOk : String → Bool) (k : Nat)
    (hk : (keepFn p).2 = some k) :
    destroysOf (enforceTarget pfx localTime keepFn t p createOk (some names) destroyOk)
      = names.drop k := by
  simp only [enforceTarget, hk]
  rw [destroysOf_append, destroysOf_append]
  have h1 : destroysOf
      (if 0 < k then
        [Act.callCreate t pfx (keepFn p).1 localTime p.recursive,
         Act.emit EventType.createSnapshot t (keepFn p).1 p.recursive createOk]
       else []) = [] := by
    split_ifs <;> rfl
  rw [h1]
  by_cases hlen : names.length ≤ k
  · rw [if_pos hlen, List.drop_eq_nil_of_le hlen]
    rfl
  · rw [if_neg hlen, destroysOf_destroyList]
    rfl

/-- Claim C1: when the selected tier's keep count is `k`, the listing
succeeds with `names` (creation-time descending) and every destroy succeeds,
the per-target `Enforce` body destroys exactly the names at indices ≥ `k`,
leaves the initial `k`-segment of the list untouched, and that segment has
at most `k` names. -/
theorem C1_enforce_prunes (pfx : String) (localTime : Bool)
    (keepFn : Plan → String × Option Nat) (t : String) (p : Plan) (createOk : Bool)
    (names : List String) (destroyOk : String → Bool) (k : Nat)
    (hk : (keepFn p).2 = some k) (hdestroy : ∀ n, destroyOk n = true) :
    destroysOf (enforceTarget pfx localTime keepFn t p createOk (some names) destroyOk)
        = names.drop k
    ∧ names.take k ++ names.drop k = names
    ∧ (names.take k).length ≤ k :=
  ⟨destroysOf_enforceTarget_some pfx localTime keepFn t p createOk names destroyOk k hk,
   List.take_append_drop k names,
   by rw [List.length_take]; exact min_le_left _ _⟩

/-- Witness for claim C1: a plan keeping 2 `frequent` snapshots, a listing
of four names; the two oldest are destroyed, the two newest survive. -/
theorem C1_enforce_prunes_witness :
    (keepFrequent ⟨false, ⟨some 2, none, none, none, none⟩⟩).2 = some 2
    ∧ (∀ n : String, (fun _ : String => true) n = true)
    ∧ (destroysOf (enforceTarget "kd" false keepFrequent "tank/a"
          ⟨false, ⟨some 2, none, none, none, none⟩⟩ true
          (some ["s4", "s3", "s2", "s1"]) (fun _ => true))
        = (["s4", "s3", "s2", "s1"] : List String).drop 2
      ∧ (["s4", "s3", "s2", "s1"] : List String).take 2
          ++ (["s4", "s3", "s2", "s1"] : List String).drop 2 = ["s4", "s3", "s2", "s1"]
      ∧ ((["s4", "s3", "s2", "s1"] : List String).take 2).length ≤ 2) :=
  ⟨rfl, fun _ => rfl,
   C1_enforce_prunes "kd" false keepFrequent "tank/a"
     ⟨false, ⟨some 2, none, none, none, none⟩⟩ true ["s4", "s3", "s2", "s1"]
     (fun _ => true) 2 rfl (fun _ => rfl)⟩

/-- Claim C7: with keep count 0 the per-target `Enforce` body performs no
creation call, still performs the listing call, and destroys every listed
name. -/
theorem C7_keep_zero (pfx : String) (localTime : Bool)
    (keepFn : Plan → String × Option Nat) (t : String) (p : Plan) (createOk : Bool)
    (names : List String) (destroyOk : String → Bool)
    (hk : (keepFn p).2 = some 0) :
    createsOf (enforceTarget pfx localTime keepFn t p createOk (some names) destroyOk) = []
    ∧ Act.callList t (keepFn p).1
        ∈ enforceTarget pfx localTime keepFn t p createOk (some names) destroyOk
    ∧ destroysOf (enforceTarget pfx localTime keepFn t p createOk (some names) destroyOk)
        = names := by
  have hd := destroysOf_enforceTarget_some pfx localTime keepFn t p createOk names destroyOk 0 hk
  refine ⟨?_, ?_, by simpa using hd⟩
  · simp only [enforceTarget, hk]
    rw [createsOf_append, createsOf_append]
    rw [if_neg (by omega : ¬ 0 < 0)]
    by_cases hlen : names.length ≤ 0
    · rw [if_pos hlen]
      rfl
    · rw [if_neg hlen, createsOf_destroyList]
      rfl
  · simp only [enforceTarget, hk]
    rw [if_neg (by omega : ¬ 0 < 0)]
    simp

/-- Witness for claim C7: keep 0 on `frequent`; the listing happens, no
snapshot is created, both listed names are destroyed. -/
theorem C7_keep_zero_witness :
    (keepFrequent ⟨false, ⟨some 0, none, none, none, none⟩⟩).2 = some 0
    ∧ (createsOf (enforceTarget "kd" false keepFrequent "tank/a"
          ⟨false, ⟨some 0, none, none, none, none⟩⟩ true (some ["s2", "s1"]) (fun _ => true)) = []
      ∧ Act.callList "tank/a" (keepFrequent ⟨false, ⟨some 0, none, none, none, none⟩⟩).1
          ∈ enforceTarget "kd" false keepFrequent "tank/a"
              ⟨false, ⟨some 0, none, none, none, none⟩⟩ true (some ["s2", "s1"]) (fun _ => true)
      ∧ destroysOf (enforceTarget "kd" false keepFrequent "tank/a"
          ⟨false, ⟨some 0, none, none, none, none⟩⟩ true (some ["s2", "s1"]) (fun _ => true))
          = ["s2", "s1"]) :=
  ⟨rfl, C7_keep_zero "kd" false keepFrequent "tank/a"
    ⟨false, ⟨some 0, none, none, none, none⟩⟩ true ["s2", "s1"] (fun _ => true) rfl⟩

/-- Claim C9: with an absent keep count the per-target `Enforce` body is the
empty trace (no adapter call, no journal event), and removing such a target
from the policy leaves the trace of a full `Enforce` run unchanged. -/
theorem C9_absent_skip (pfx : String) (localTime : Bool)
    (keepFn : Plan → String × Option Nat) (t : String) (p : Plan) (createOk : Bool)
    (listRes : Option (List String)) (destroyOk : String → Bool)
    (l1 l2 : List (String × Plan)) (cO : String → Bool) (lO : String → Option (List String))
    (dO : String → String → Bool) (hk : (keepFn p).2 = none) :
    enforceTarget pfx localTime keepFn t p createOk listRes destroyOk = []
    ∧ enforce pfx localTime (l1 ++ (t, p) :: l2) keepFn cO lO dO
        = enforce pfx localTime (l1 ++ l2) keepFn cO lO dO := by
  have h1 : ∀ (c : Bool) (lr : Option (List String)) (d : String → Bool),
      enforceTarget pfx localTime keepFn t p c lr d = [] := by
    intro c lr d
    simp only [enforceTarget, hk]
  refine ⟨h1 _ _ _, ?_⟩
  unfold enforce
  rw [List.flatMap_append, List.flatMap_cons, List.flatMap_append]
  rw [h1]
  simp

/-- Witness for claim C9: a target with `frequent` absent contributes
nothing to a `FrequentJob` trace and can be dropped from the target list. -/
theorem C9_absent_skip_witness :
    (keepFrequent ⟨false, ⟨none, none, none, none, none⟩⟩).2 = none
    ∧ (enforceTarget "kd" false keepFrequent "tank/a"
        ⟨false, ⟨none, none, none, none, none⟩⟩ true (some ["s1"]) (fun _ => true) = []
      ∧ enforce "kd" false
          ([("tank/b", ⟨true, ⟨some 1, none, none, none, none⟩⟩)]
            ++ ("tank/a", ⟨false, ⟨none, none, none, none, none⟩⟩) :: []) keepFrequent
          (fun _ => true) (fun _ => some ["s1"]) (fun _ _ => true)
        = enforce "kd" false
            ([("tank/b", ⟨true, ⟨some 1, none, none, none, none⟩⟩)] ++ []) keepFrequent
            (fun _ => true) (fun _ => some ["s1"]) (fun _ _ => true)) :=
  ⟨rfl, C9_absent_skip "kd" false keepFrequent "tank/a"
    ⟨false, ⟨none, none, none, none, none⟩⟩ true (some ["s1"]) (fun _ => true)
    [("tank/b", ⟨true, ⟨some 1, none, none, none, none⟩⟩)] []
    (fun _ => true) (fun _ => some ["s1"]) (fun _ _ => true) rfl⟩

/-! ## Theorems: calendar phase of `RegularJob` -/

/-- Characterization of the calendar-phase fold: starting from any
accumulator, it appends exactly the firing tags and one write per
(firing tag, pool) pair. -/
theorem regularFold_char (tick : Int) (pools : List String)
    (stored : String → String → Option Int) :
    ∀ (tags : List String) (a1 : List String) (a2 : List (String × String × Int)),
      tags.foldl (fun acc tag =>
        if triggerFor tag tick (lastRunOf pools stored (poolPropKey tag)) then
          (acc.1 ++ [tag], acc.2 ++ pools.map (fun q => (q, poolPropKey tag, tick)))
        else acc) (a1, a2)
      = (a1 ++ tags.filter (fun tag =>
            triggerFor tag tick (lastRunOf pools stored (poolPropKey tag))),
         a2 ++ (tags.filter (fun tag =>
            triggerFor tag tick (lastRunOf pools stored (poolPropKey tag)))).flatMap
              (fun tag => pools.map (fun q => (q, poolPropKey tag, tick)))) := by
  intro tags
  induction tags with
  | nil => intro a1 a2; simp
  | cons x xs ih =>
    intro a1 a2
    simp only [List.foldl_cons, List.filter_cons]
    by_cases hx : triggerFor x tick (lastRunOf pools stored (poolPropKey x)) = true
    · rw [if_pos hx, if_pos hx, ih]
      simp [List.flatMap_cons]
    · rw [if_neg hx, if_neg hx, ih]

/-- Characterization of the last-run fold from an arbitrary start: the
result is at least the start and at least every parsed value, and is either
the start itself or one of the parsed values. -/
theorem lastRunFold_char (stored : String → String → Option Int) (key : String) :
    ∀ (ps : List String) (a : Int),
      a ≤ ps.foldl (lastRunStep stored key) a
      ∧ (∀ q ∈ ps, ∀ v, stored q key = some v → v ≤ ps.foldl (lastRunStep stored key) a)
      ∧ (ps.foldl (lastRunStep stored key) a = a
          ∨ ∃ q ∈ ps, stored q key = some (ps.foldl (lastRunStep stored key) a)) := by
  intro ps
  induction ps with
  | nil => intro a; simp
  | cons x xs ih =>
    intro a
    simp only [List.foldl_cons]
    rcases hx : stored x key with _ | v
    · have hb : lastRunStep stored key a x = a := by simp [lastRunStep, hx]
      rw [hb]
      have h := ih a
      refine ⟨h.1, ?_, ?_⟩
      · intro q hq w hw
        rcases List.mem_cons.mp hq with hq | hq
        · rw [hq, hx] at hw; cases hw
        · exact h.2.1 q hq w hw
      · rcases h.2.2 with h2 | ⟨q, hq, hw⟩
        · exact Or.inl h2
        · exact Or.inr ⟨q, List.mem_cons_of_mem _ hq, hw⟩
    · by_cases hgt : v > a
      · have hb : lastRunStep stored key a x = v := by simp [lastRunStep, hx, hgt]
        rw [hb]
        have h := ih v
        refine ⟨by omega, ?_, ?_⟩
        · intro q hq w hw
          rcases List.mem_cons.mp hq with hq | hq
          · rw [hq, hx] at hw
            cases hw
            exact h.1
          · exact h.2.1 q hq w hw
        · rcases h.2.2 with h2 | ⟨q, hq, hw⟩
          · exact Or.inr ⟨x, List.mem_cons_self _ _, by rw [hx, h2]⟩
          · exact Or.inr ⟨q, List.mem_cons_of_mem _ hq, hw⟩
      · have hb : lastRunStep stored key a x = a := by simp [lastRunStep, hx, hgt]
        rw [hb]
        have h := ih a
        refine ⟨h.1, ?_, ?_⟩
        · intro q hq w hw
          rcases List.mem_cons.mp hq with hq | hq
          · rw [hq, hx] at hw
            cases hw
            omega
          · exact h.2.1 q hq w hw
        · rcases h.2.2 with h2 | ⟨q, hq, hw⟩
          · exact Or.inl h2
          · exact Or.inr ⟨q, List.mem_cons_of_mem _ hq, hw⟩

/-- Claim C2 as stated is false: with one pool whose stored `daily`
timestamp reads and parses as `-5` and tick `43200` (midday 1970-01-01),
the code leaves the accumulated last-run at 0 (the parsed value is not
larger) and fires nothing, while the claim's effective last-run `-5`
(1969-12-31) would make the daily trigger fire. -/
theorem C2_counterexample :
    (regularJobCalendar "kd" 43200 ["tank"]
        (fun q key => if q = "tank" ∧ key = poolPropKey "daily" then some (-5) else none)).1
      ≠ calendarTags.filter (fun tag => triggerFor tag 43200
          (specLastRun ["tank"]
            (fun q key => if q = "tank" ∧ key = poolPropKey "daily" then some (-5) else none)
            (poolPropKey tag))) := by
  decide

/-- Claim C2, amended: the calendar phase runs `Enforce` for exactly the
calendar tags whose trigger fires against the accumulated last-run (the
maximum of 0 and all parseable stored timestamps), and writes the tick's
Unix seconds into the tag's property of every pool for exactly the tags
that fired. -/
theorem C2_regular_job (pfx : String) (tick : Int) (pools : List String)
    (stored : String → String → Option Int) :
    (regularJobCalendar pfx tick pools stored).1
      = calendarTags.filter (fun tag =>
          triggerFor tag tick (lastRunOf pools stored (poolPropKey tag)))
    ∧ (regularJobCalendar pfx tick pools stored).2
      = ((regularJobCalendar pfx tick pools stored).1).flatMap
          (fun tag => pools.map (fun q => (q, poolPropKey tag, tick)))
    ∧ (∀ key, 0 ≤ lastRunOf pools stored key
        ∧ (∀ q ∈ pools, ∀ v, stored q key = some v → v ≤ lastRunOf pools stored key)
        ∧ (lastRunOf pools stored key = 0
            ∨ ∃ q ∈ pools, stored q key = some (lastRunOf pools stored key))) := by
  have hc := regularFold_char tick pools stored calendarTags [] []
  refine ⟨?_, ?_, ?_⟩
  · rw [regularJobCalendar, hc]
    rfl
  · rw [regularJobCalendar, hc]
    simp
  · intro key
    have h := lastRunFold_char stored key pools 0
    exact ⟨h.1, h.2.1, h.2.2⟩

/-- Claim C3 as stated is false: for a policy with prefix `"kd"`, the write
phase uses the fixed key `org.keepd:lastdailyjob`, not the prefix-embedding
`org.kdd:lastdailyjob` that the claim derives. -/
theorem C3_counterexample :
    (regularJobCalendar "kd" 86400 ["tank"] (fun _ _ => none)).2
      = [("tank", "org.keepd:lastdailyjob", 86400)]
    ∧ "org.keepd:lastdailyjob" ≠ specPoolPropKey "kd" "daily" := by
  constructor
  · decide
  · decide

/-- Claim C3, amended: the pool-property key read and written by the
calendar phase is the fixed `org.keepd:last<tier>job`, independent of the
policy's configured prefix (the whole calendar phase is
prefix-independent). -/
theorem C3_pool_key (pfx pfx2 : String) (tick : Int) (pools : List String)
    (stored : String → String → Option Int) :
    regularJobCalendar pfx tick pools stored = regularJobCalendar pfx2 tick pools stored
    ∧ (∀ tag, poolPropKey tag = "org.keepd:last" ++ tag ++ "job")
    ∧ poolPropKey "daily" = "org.keepd:lastdailyjob" :=
  ⟨rfl, fun _ => rfl, rfl⟩

/-! ## Theorems: policy loading -/

/-- Inserting a member list succeeds exactly when the list has no duplicate
and no member is already a key of the accumulator. -/
theorem insertMembers_ok_iff (gname : String) (plan : Plan) :
    ∀ (ms : List String) (acc : List (String × Plan)),
      (∃ res, insertMembers gname plan acc ms = Except.ok res)
        ↔ ms.Nodup ∧ ∀ m ∈ ms, m ∉ keysOf acc := by
  intro ms
  induction ms with
  | nil => intro acc; simp [insertMembers]
  | cons m ms ih =>
    intro acc
    simp only [insertMembers]
    by_cases hm : m ∈ keysOf acc
    · rw [if_pos hm]
      constructor
      · rintro ⟨res, h⟩
        cases h
      · rintro ⟨-, hall⟩
        exact absurd hm (hall m (List.mem_cons_self m ms))
    · rw [if_neg hm, ih ((m, plan) :: acc)]
      simp only [List.nodup_cons, keysOf, List.map_cons, List.mem_cons]
      constructor
      · rintro ⟨hnd, hall⟩
        refine ⟨⟨fun hmem => (hall m hmem) (Or.inl rfl), hnd⟩, ?_⟩
        rintro x (rfl | hx)
        · exact hm
        · exact fun hxk => (hall x hx) (Or.inr hxk)
      · rintro ⟨⟨hmm, hnd⟩, hall⟩
        refine ⟨hnd, ?_⟩
        intro x hx
        rintro (rfl | hxk)
        · exact hmm hx
        · exact hall x (Or.inr hx) hxk

/-- Keys after a successful member insertion: the old keys plus the
members. -/
theorem insertMembers_keys (gname : String) (plan : Plan) :
    ∀ (ms : List String) (acc res : List (String × Plan)),
      insertMembers gname plan acc ms = Except.ok res →
      ∀ x, x ∈ keysOf res ↔ x ∈ keysOf acc ∨ x ∈ ms := by
  intro ms
  induction ms with
  | nil =>
    intro acc res h x
    simp only [insertMembers] at h
    injection h with h
    subst h
    simp
  | cons m ms ih =>
    intro acc res h x
    simp only [insertMembers] at h
    by_cases hm : m ∈ keysOf acc
    · rw [if_pos hm] at h
      cases h
    · rw [if_neg hm] at h
      have h1 := ih ((m, plan) :: acc) res h x
      simp only [keysOf, List.map_cons, List.mem_cons] at h1 ⊢
      rw [h1]
      tauto

/-- Folding the groups succeeds exactly when the concatenated member lists
have no duplicate and no member is already a key of the accumulator. -/
theorem insertGroups_ok_iff :
    ∀ (gs : List (String × TargetGroup)) (acc : List (String × Plan)),
      (∃ res, insertGroups acc gs = Except.ok res)
        ↔ (allMembers gs).Nodup ∧ ∀ m ∈ allMembers gs, m ∉ keysOf acc := by
  intro gs
  induction gs with
  | nil =>
    intro acc
    simp [insertGroups, allMembers]
  | cons g gs ih =>
    intro acc
    obtain ⟨gname, gr⟩ := g
    simp only [insertGroups]
    cases hm : insertMembers gname gr.plan acc gr.members with
    | error e =>
      simp only [hm]
      constructor
      · rintro ⟨res, h⟩
        cases h
      · rintro ⟨hnd, hall⟩
        have hok : ∃ res, insertMembers gname gr.plan acc gr.members = Except.ok res := by
          rw [insertMembers_ok_iff]
          simp only [allMembers, List.flatMap_cons, List.nodup_append, List.mem_append] at hnd hall
          exact ⟨hnd.1, fun m hmem => hall m (Or.inl hmem)⟩
        rcases hok with ⟨res, hok⟩
        rw [hm] at hok
        cases hok
    | ok acc2 =>
      simp only [hm]
      rw [ih acc2]
      have hkeys := insertMembers_keys gname gr.plan gr.members acc acc2 hm
      have hok : gr.members.Nodup ∧ ∀ m ∈ gr.members, m ∉ keysOf acc :=
        (insertMembers_ok_iff gname gr.plan gr.members acc).mp ⟨acc2, hm⟩
      simp only [allMembers, List.flatMap_cons, List.nodup_append, List.mem_append]
      constructor
      · rintro ⟨hnd, hall⟩
        refine ⟨⟨hok.1, hnd, ?_⟩, ?_⟩
        · intro a ha hb
          exact hall a hb ((hkeys a).mpr (Or.inr ha))
        · intro m hm'
          rcases hm' with h1 | h2
          · exact hok.2 m h1
          · intro hk
            exact hall m h2 ((hkeys m).mpr (Or.inl hk))
      · rintro ⟨⟨hnd1, hnd2, hdisj⟩, hall⟩
        refine ⟨hnd2, ?_⟩
        intro m hmem hk2
        rcases (hkeys m).mp hk2 with hk | hmem2
        · exact hall m (Or.inr hmem) hk
        · exact hdisj hmem2 hmem

/-- Keys after successfully folding all groups: the old keys plus every
group member. -/
theorem insertGroups_keys :
    ∀ (gs : List (String × TargetGroup)) (acc res : List (String × Plan)),
      insertGroups acc gs = Except.ok res →
      ∀ x, x ∈ keysOf res ↔ x ∈ keysOf acc ∨ x ∈ allMembers gs := by
  intro gs
  induction gs with
  | nil =>
    intro acc res h x
    simp only [insertGroups] at h
    injection h with h
    subst h
    simp [allMembers]
  | cons g gs ih =>
    intro acc res h x
    obtain ⟨gname, gr⟩ := g
    simp only [insertGroups] at h
    cases hm : insertMembers gname gr.plan acc gr.members with
    | error e =>
      simp only [hm] at h
      cases h
    | ok acc2 =>
      simp only [hm] at h
      have h1 := ih acc2 res h x
      have h2 := insertMembers_keys gname gr.plan gr.members acc acc2 hm x
      simp only [allMembers, List.flatMap_cons, List.mem_append] at h1 ⊢
      rw [h1, h2]
      tauto

/-- A successful `loadPolicy` run reaches and succeeds in the group-folding
phase. -/
theorem loadOk_insertGroups (p : RawPolicy) (h : loadOk p = true) :
    ∃ res, insertGroups (p.targets.getD []) p.groups = Except.ok res := by
  unfold loadOk loadPolicy at h
  split_ifs at h
  cases hm : insertGroups (p.targets.getD []) p.groups with
  | error e =>
    rw [hm] at h
    simp at h
  | ok res =>
    exact ⟨res, rfl⟩

/-- Claim C4 as stated is false: a 33-character all-lowercase prefix loads
successfully; `LoadPolicy` has no upper bound on the prefix length. -/
theorem C4_counterexample :
    ("aaaaaaaaaaaaaaaaaaaaaaaaaaaaaaaaa" : String).length = 33
    ∧ loadOk ⟨"aaaaaaaaaaaaaaaaaaaaaaaaaaaaaaaaa", false, none, []⟩ = true := by
  constructor
  · decide
  · decide

/-- Claim C4, amended: `LoadPolicy` accepts every non-empty all-lowercase
prefix -- in particular lengths 1, 32 and also 33 -- and rejects only the
empty prefix (or one with a character outside `a`-`z`). -/
theorem C4_prefix_validation (p : RawPolicy) (h1 : p.prefixStr ≠ "")
    (h2 : ∀ c ∈ p.prefixStr.toList, 'a' ≤ c ∧ c ≤ 'z') (hg : p.groups = []) :
    loadOk p = true ∧ ∀ q : RawPolicy, q.prefixStr = "" → loadOk q = false := by
  constructor
  · unfold loadOk loadPolicy
    rw [if_neg h1]
    have hany : p.prefixStr.toList.any (fun c => decide (c < 'a' ∨ 'z' < c)) = false := by
      rw [Bool.eq_false_iff]
      intro hany
      rw [List.any_eq_true] at hany
      obtain ⟨c, hc, hcp⟩ := hany
      rw [decide_eq_true_eq] at hcp
      have hb := h2 c hc
      rcases hcp with hcp | hcp
      · exact absurd hcp (not_lt.mpr hb.1)
      · exact absurd hcp (not_lt.mpr hb.2)
    rw [if_neg (by rw [hany]; exact Bool.false_ne_true)]
    rw [hg]
    rfl
  · intro q hq
    unfold loadOk loadPolicy
    rw [if_pos hq]

/-- Witness for the amended claim C4: prefixes of lengths 1, 32 and 33 load;
the empty prefix fails. -/
theorem C4_prefix_validation_witness :
    loadOk ⟨"a", false, none, []⟩ = true
    ∧ loadOk ⟨"aaaaaaaaaaaaaaaaaaaaaaaaaaaaaaaa", false, none, []⟩ = true
    ∧ loadOk ⟨"", false, none, []⟩ = false :=
  ⟨(C4_prefix_validation ⟨"a", false, none, []⟩ (by decide) (by decide) rfl).1,
   (C4_prefix_validation ⟨"aaaaaaaaaaaaaaaaaaaaaaaaaaaaaaaa", false, none, []⟩
     (by decide) (by decide) rfl).1,
   (C4_prefix_validation ⟨"a", false, none, []⟩ (by decide) (by decide) rfl).2
     ⟨"", false, none, []⟩ rfl⟩

/-- Claim C8: loading fails when a target appears in the member lists of
two distinct groups, and when a target appears both in the top-level target
map and in some group; and on success the key set of the flattened target
map is the union of the raw top-level keys and all group members. -/
theorem C8_group_overlap (p : RawPolicy) :
    (∀ (m : String) (pre mid post : List (String × TargetGroup))
        (g h : String × TargetGroup),
        p.groups = pre ++ g :: (mid ++ h :: post) →
        m ∈ g.2.members → m ∈ h.2.members → loadOk p = false)
    ∧ (∀ m : String, m ∈ keysOf (p.targets.getD []) → m ∈ allMembers p.groups →
        loadOk p = false)
    ∧ (∀ pol : Policy, loadPolicy p = Except.ok pol →
        ∀ x, x ∈ keysOf pol.targets ↔ x ∈ keysOf (p.targets.getD []) ∨ x ∈ allMembers p.groups) := by
  refine ⟨?_, ?_, ?_⟩
  · intro m pre mid post g h hsplit hg hh
    by_contra hne
    have ht : loadOk p = true := by
      cases hl : loadOk p
      · exact absurd hl hne
      · rfl
    have hok := loadOk_insertGroups p ht
    rw [insertGroups_ok_iff] at hok
    have hnd := hok.1
    rw [hsplit] at hnd
    simp only [allMembers, List.flatMap_append, List.flatMap_cons] at hnd
    rw [List.nodup_append] at hnd
    have h2 := hnd.2.1
    rw [List.nodup_append] at h2
    exact h2.2.2 hg (by simp [hh])
  · intro m hmt hmm'
    by_contra hne
    have ht : loadOk p = true := by
      cases hl : loadOk p
      · exact absurd hl hne
      · rfl
    have hok := loadOk_insertGroups p ht
    rw [insertGroups_ok_iff] at hok
    exact hok.2 m hmm' hmt
  · intro pol hpol x
    unfold loadPolicy at hpol
    split_ifs at hpol
    cases hm : insertGroups (p.targets.getD []) p.groups with
    | error e =>
      rw [hm] at hpol
      exact absurd hpol (by simp)
    | ok res =>
      rw [hm] at hpol
      have hres := insertGroups_keys p.groups (p.targets.getD []) res hm x
      have hinj : pol.targets = res := by
        have : Except.ok (⟨p.prefixStr, p.localTime, res⟩ : Policy) = Except.ok pol := hpol
        injection this with h3
        rw [← h3]
      rw [hinj]
      exact hres

/-- Witness for claim C8: the same member in two groups fails to load;
flattening one group alongside a top-level target yields exactly the union
of keys. -/
theorem C8_group_overlap_witness :
    loadOk ⟨"kd", false, none,
        [("a", ⟨["tank/pg"], ⟨false, ⟨none, none, none, none, none⟩⟩⟩),
         ("b", ⟨["tank/pg"], ⟨false, ⟨none, none, none, none, none⟩⟩⟩)]⟩ = false
    ∧ ("tank/pg" ∈ keysOf (⟨"kd", false,
          [("tank/pg", ⟨false, ⟨none, none, none, none, none⟩⟩),
           ("tank/a", ⟨false, ⟨none, none, none, none, none⟩⟩)]⟩ : Policy).targets
        ↔ "tank/pg" ∈ keysOf ((some [("tank/a", ⟨false, ⟨none, none, none, none, none⟩⟩)]
            : Option (List (String × Plan))).getD [])
          ∨ "tank/pg" ∈ allMembers
              [("db", ⟨["tank/pg"], ⟨false, ⟨none, none, none, none, none⟩⟩⟩)]) :=
  ⟨(C8_group_overlap ⟨"kd", false, none,
      [("a", ⟨["tank/pg"], ⟨false, ⟨none, none, none, none, none⟩⟩⟩),
       ("b", ⟨["tank/pg"], ⟨false, ⟨none, none, none, none, none⟩⟩⟩)]⟩).1
    "tank/pg" [] [] []
    ("a", ⟨["tank/pg"], ⟨false, ⟨none, none, none, none, none⟩⟩⟩)
    ("b", ⟨["tank/pg"], ⟨false, ⟨none, none, none, none, none⟩⟩⟩)
    rfl (by decide) (by decide),
   (C8_group_overlap ⟨"kd", false, some [("tank/a", ⟨false, ⟨none, none, none, none, none⟩⟩)],
      [("db", ⟨["tank/pg"], ⟨false, ⟨none, none, none, none, none⟩⟩⟩)]⟩).2.2
    ⟨"kd", false, [("tank/pg", ⟨false, ⟨none, none, none, none, none⟩⟩),
      ("tank/a", ⟨false, ⟨none, none, none, none, none⟩⟩)]⟩ rfl "tank/pg"⟩

/-- Claim C10: a duplicate within a single group's member list makes
loading fail, with no second group and no top-level target involved. -/
theorem C10_dup_member (p : RawPolicy) (gname : String) (g : TargetGroup)
    (hmem : (gname, g) ∈ p.groups) (hdup : ¬ g.members.Nodup) : loadOk p = false := by
  by_contra hne
  have ht : loadOk p = true := by
    cases hl : loadOk p
    · exact absurd hl hne
    · rfl
  have hok := loadOk_insertGroups p ht
  rw [insertGroups_ok_iff] at hok
  have hnd := hok.1
  obtain ⟨s, t, hst⟩ := List.append_of_mem hmem
  rw [hst] at hnd
  simp only [allMembers, List.flatMap_append, List.flatMap_cons] at hnd
  rw [List.nodup_append] at hnd
  have h2 := hnd.2.1
  rw [List.nodup_append] at h2
  exact absurd h2.1 hdup

/-- Witness for claim C10: a group listing the same target twice fails to
load. -/
theorem C10_dup_member_witness :
    loadOk ⟨"kd", false, none,
      [("g", ⟨["tank/a", "tank/a"], ⟨false, ⟨none, none, none, none, none⟩⟩⟩)]⟩ = false :=
  C10_dup_member
    ⟨"kd", false, none,
      [("g", ⟨["tank/a", "tank/a"], ⟨false, ⟨none, none, none, none, none⟩⟩⟩)]⟩
    "g" ⟨["tank/a", "tank/a"], ⟨false, ⟨none, none, none, none, none⟩⟩⟩
    (by decide) (by decide)

/-! ## Theorems: snapshot name codec -/

/-- Decimal digit characters are RE2 digits. -/
theorem digitChar_isDigit {n : Nat} (h : n < 10) : isDigitCh (Nat.digitChar n) := by
  have hall : ∀ m, m < 10 → isDigitCh (Nat.digitChar m) := by decide
  exact hall n h

/-- All characters of a two-digit pad are digits. -/
theorem pad2_digits {n : Nat} (h : n ≤ 99) : ∀ c ∈ pad2 n, isDigitCh c := by
  intro c hc
  simp only [pad2, List.mem_cons, List.not_mem_nil, or_false] at hc
  rcases hc with rfl | rfl
  · exact digitChar_isDigit (by omega)
  · exact digitChar_isDigit (by omega)

/-- All characters of a four-digit pad are digits. -/
theorem pad4_digits {n : Nat} (h : n ≤ 9999) : ∀ c ∈ pad4 n, isDigitCh c := by
  intro c hc
  simp only [pad4, List.mem_cons, List.not_mem_nil, or_false] at hc
  rcases hc with rfl | rfl | rfl | rfl
  · exact digitChar_isDigit (by omega)
  · exact digitChar_isDigit (by omega)
  · exact digitChar_isDigit (by omega)
  · exact digitChar_isDigit (by omega)

/-- A tier's own matcher matches the name the encoder produces for it. -/
theorem matches_encode (pfx tag : List Char) (y mo d h mi s : Nat) (hy : y ≤ 9999)
    (hmo : mo ≤ 99) (hd : d ≤ 99) (hh : h ≤ 99) (hmi : mi ≤ 99) (hs : s ≤ 99) :
    matchesTag pfx tag (encodeName pfx tag y mo d h mi s) :=
  ⟨[], pad4 y, pad2 mo, pad2 d, pad2 h, pad2 mi, pad2 s,
   rfl, rfl, rfl, rfl, rfl, rfl,
   pad4_digits hy, pad2_digits hmo, pad2_digits hd, pad2_digits hh, pad2_digits hmi,
   pad2_digits hs, rfl⟩

/-- A matched name ends in a dot followed by the matcher's tag. -/
theorem suffix_of_matches {pfx tag name : List Char} (h : matchesTag pfx tag name) :
    ('.' :: tag) <:+ name := by
  obtain ⟨pre, d4, m2, a2, h2c, n2c, s2c, -, -, -, -, -, -, -, -, -, -, -, -, heq⟩ := h
  refine ⟨pre ++ pfx ++ '.' :: (d4 ++ '-' :: (m2 ++ '-' :: (a2 ++ '.' :: (h2c ++ ':' ::
    (n2c ++ ':' :: s2c))))), ?_⟩
  rw [heq]
  simp [List.append_assoc]

/-- Among two suffixes of the same list, the shorter is a suffix of the
longer. -/
theorem suffix_of_suffix_length_le {l1 l2 s : List Char} (h1 : l1 <:+ s) (h2 : l2 <:+ s)
    (hle : l1.length ≤ l2.length) : l1 <:+ l2 := by
  rw [← List.reverse_prefix] at h1 h2 ⊢
  exact List.prefix_of_prefix_length_le h1 h2 (by simpa using hle)

/-- No tier tag, preceded by a dot, is a suffix of a different tier tag
preceded by a dot. -/
theorem tierTags_not_suffix :
    ∀ a ∈ tierTags, ∀ b ∈ tierTags, a ≠ b → ¬ (('.' :: a) <:+ ('.' :: b)) := by
  decide

/-- Claim C6: for a valid prefix and tier tags from the five-tag set, the
encoded snapshot name is matched by a tier's matcher exactly when that
matcher's tag is the encoded tag, so the tier is recoverable from the
name. -/
theorem C6_codec (pfx : List Char) (hne : pfx ≠ []) (hpfx : ∀ c ∈ pfx, 'a' ≤ c ∧ c ≤ 'z')
    (tag tag' : List Char) (htag : tag ∈ tierTags) (htag' : tag' ∈ tierTags)
    (y mo d h mi s : Nat) (hy : y ≤ 9999) (hmo : mo ≤ 99) (hd : d ≤ 99) (hh : h ≤ 99)
    (hmi : mi ≤ 99) (hs : s ≤ 99) :
    matchesTag pfx tag' (encodeName pfx tag y mo d h mi s) ↔ tag' = tag := by
  constructor
  · intro hm
    by_contra hne'
    have h1 : ('.' :: tag') <:+ encodeName pfx tag y mo d h mi s := suffix_of_matches hm
    have h2 : ('.' :: tag) <:+ encodeName pfx tag y mo d h mi s :=
      suffix_of_matches (matches_encode pfx tag y mo d h mi s hy hmo hd hh hmi hs)
    rcases le_total ('.' :: tag').length ('.' :: tag).length with hle | hle
    · exact tierTags_not_suffix tag' htag' tag htag hne'
        (suffix_of_suffix_length_le h1 h2 hle)
    · exact tierTags_not_suffix tag htag tag' htag' (fun he => hne' he.symm)
        (suffix_of_suffix_length_le h2 h1 hle)
  · rintro rfl
    exact matches_encode pfx tag' y mo d h mi s hy hmo hd hh hmi hs

/-- Witness for claim C6 at prefix `kd` and time 2024-05-06 07:08:09: the
daily matcher matches the encoded daily name; the weekly matcher does
not. -/
theorem C6_codec_witness :
    (matchesTag ("kd".toList) ("daily".toList)
        (encodeName ("kd".toList) ("daily".toList) 2024 5 6 7 8 9)
      ↔ "daily".toList = "daily".toList)
    ∧ (matchesTag ("kd".toList) ("weekly".toList)
        (encodeName ("kd".toList) ("daily".toList) 2024 5 6 7 8 9)
      ↔ "weekly".toList = "daily".toList) :=
  ⟨C6_codec ("kd".toList) (by decide) (by decide) ("daily".toList) ("daily".toList)
    (by decide) (by decide) 2024 5 6 7 8 9 (by omega) (by omega) (by omega) (by omega)
    (by omega) (by omega),
   C6_codec ("kd".toList) (by decide) (by decide) ("daily".toList) ("weekly".toList)
    (by decide) (by decide) 2024 5 6 7 8 9 (by omega) (by omega) (by omega) (by omega)
    (by omega) (by omega)⟩
